import Mathlib

/-!
Verification development for the PII redaction processing pipeline.

Text is modelled as `List Char` (the pipeline only handles ASCII OCR text);
pixel quantities as `Int`; page-relative quantities as `ℚ`.  Each definition
is a shallow embedding of the correspondingly named Python function of
`src/processing_pipeline`.
-/

namespace PiiPipeline

/-- Convert a Lean string literal to the `List Char` representation used
throughout this development. -/
def strL (s : String) : List Char := s.data

/-- Characters matched by the regex class `\s` used in
`find_target_bboxes.normalize` (`re.sub(r'\s+', ' ', text)`) and stripped by
Python `str.strip()`. -/
def isWS (c : Char) : Bool :=
  c = ' ' || c = '\t' || c = '\n' || c = '\r' || c = '\x0b' || c = '\x0c'

/-- The punctuation set of `text.strip(",.:;-")` in
`find_target_bboxes.normalize` (pipeline.py line 118). -/
def isPunct (c : Char) : Bool :=
  c = ',' || c = '.' || c = ':' || c = ';' || c = '-'

/-- `re.sub(r'\s+', ' ', text)`: every maximal run of whitespace becomes a
single space (pipeline.py line 114). -/
def collapseWS : List Char → List Char
  | [] => []
  | [c] => if isWS c then [' '] else [c]
  | c :: d :: rest =>
    if isWS c && isWS d then collapseWS (d :: rest)
    else (if isWS c then ' ' else c) :: collapseWS (d :: rest)

/-- Remove the trailing characters satisfying `p`. -/
def stripTail (p : Char → Bool) (l : List Char) : List Char :=
  ((l.reverse.dropWhile p).reverse)

/-- Remove the leading and trailing characters satisfying `p`; with `isWS`
this is Python `str.strip()`, with `isPunct` it is `str.strip(",.:;-")`
(which strips BOTH ends). -/
def stripBoth (p : Char → Bool) (l : List Char) : List Char :=
  stripTail p (l.dropWhile p)

/-- ASCII lowercasing of one character, as Python `str.lower()` acts on the
ASCII OCR text handled by the pipeline. -/
def lowerChar (c : Char) : Char :=
  if 'A' ≤ c && c ≤ 'Z' then Char.ofNat (c.toNat + 32) else c

/-- ASCII uppercasing of one character, as Python `str.upper()` acts on the
ASCII entity-type names handled by the pipeline. -/
def upperChar (c : Char) : Char :=
  if 'a' ≤ c && c ≤ 'z' then Char.ofNat (c.toNat - 32) else c

/-- `find_target_bboxes.normalize` (pipeline.py lines 113-119): collapse
whitespace runs to a single space, strip surrounding whitespace, lowercase
unless `match_case`, then strip the punctuation set `,.:;-` from both ends.
The unused `is_target` parameter of the source is omitted. -/
def normalize (matchCase : Bool) (text : List Char) : List Char :=
  let t1 := collapseWS text
  let t2 := stripBoth isWS t1
  let t3 := if matchCase then t2 else t2.map lowerChar
  stripBoth isPunct t3

example : normalize false (strL "  John   DOE ,") = strL "john doe " := by decide
example : normalize false (strL "-abc") = strL "abc" := by decide
example : normalize false (strL " , . ") = strL " " := by decide
example : normalize true (strL "A-B") = strL "A-B" := by decide

/-- One OCR token of the flattened stream built in `find_target_bboxes`
(pipeline.py lines 99-108): its raw text and its pixel box `[x1,y1,x2,y2]`
(kept as a raw `List Int` because the source re-checks `len(box) == 4`). -/
structure Token where
  text : List Char
  box : List Int

/-- Concatenate a list of lists (used to flatten the per-line token lists,
as the nested Python loop does). -/
def concatLists {α : Type} : List (List α) → List α
  | [] => []
  | x :: xs => x ++ concatLists xs

/-- The flattening loop of `find_target_bboxes` (pipeline.py lines 99-108):
`zip` truncates to the shorter of the two line lists, and within each line
`length = min(len(line_tokens), len(line_boxes))` drops mismatched trailing
entries. -/
def flattenTokens (textLines : List (List (List Char)))
    (boxLines : List (List (List Int))) : List Token :=
  concatLists ((textLines.zip boxLines).map
    (fun p => (p.1.zip p.2).map (fun q => Token.mk q.1 q.2)))

/-- A box is consumed by the merge loop only when `len(box) == 4`
(pipeline.py line 145). -/
def validBox : List Int → Option (Int × Int × Int × Int)
  | [a, b, c, d] => some (a, b, c, d)
  | _ => none

/-- The union-bounding-rectangle computation of `find_target_bboxes`
(pipeline.py lines 140-152): fold `min` over the `x1`/`y1` and `max` over the
`x2`/`y2` corners of the 4-element boxes in the window.  When no box in the
window has 4 elements, `min_x` stays `float('inf')` and `int(min_x)` raises
`OverflowError` in the source; that path is the `.error` case. -/
def unionBox (ts : List Token) : Except Unit (List Int) :=
  match ts.filterMap (fun t => validBox t.box) with
  | [] => .error ()
  | v :: vs =>
    let m := vs.foldl
      (fun acc q =>
        (min acc.1 q.1, min acc.2.1 q.2.1, max acc.2.2.1 q.2.2.1,
          max acc.2.2.2 q.2.2.2)) v
    .ok [m.1, m.2.1, m.2.2.1, m.2.2.2]

/-- The inner window-growing loop of `find_target_bboxes` (pipeline.py lines
132-161) for one start index: `acc` is `current_text` so far, `win` the
tokens already in the window, `rest` the tokens not yet appended.  Raw token
text is concatenated with no separator; the window is re-normalized after
each extension; on equality with the normalized target the union rectangle is
returned; when the normalized window exceeds the normalized target length by
more than 10 the start index is abandoned. -/
def scanFrom (matchCase : Bool) (nt : List Char) :
    List Char → List Token → List Token → Option (Except Unit (List Int))
  | _, _, [] => none
  | acc, win, t :: rest =>
    let acc2 := acc ++ t.text
    let win2 := win ++ [t]
    let nw := normalize matchCase acc2
    if nw = nt then some (unionBox win2)
    else if nw.length > nt.length + 10 then none
    else scanFrom matchCase nt acc2 win2 rest

/-- The outer loop of `find_target_bboxes` (pipeline.py lines 128-161) in the
`return_all=False` mode: try each start index in order, skipping tokens whose
normalized text is empty, and return the first completed window. -/
def findFrom (matchCase : Bool) (nt : List Char) :
    List Token → Option (Except Unit (List Int))
  | [] => none
  | t :: rest =>
    if (normalize matchCase t.text).isEmpty then findFrom matchCase nt rest
    else
      match scanFrom matchCase nt [] [] (t :: rest) with
      | some r => some r
      | none => findFrom matchCase nt rest

/-- `DocumentProcessor.find_target_bboxes` (pipeline.py lines 82-165) in its
default `return_all=False` mode (the only mode the pipeline calls): `.ok none`
models the Python `None` returned when the token stream is empty, the
normalized target is empty, or no window matches; `.ok (some box)` models the
first merged pixel box; `.error` models the `OverflowError` raised when a
matched window contains no 4-element box.  With `return_all=True` the source
only changes `None` to `[]` and keeps scanning after a match; no claim
depends on that mode. -/
def find_target_bboxes (matchCase : Bool) (target : List Char)
    (textLines : List (List (List Char))) (boxLines : List (List (List Int))) :
    Except Unit (Option (List Int)) :=
  if textLines.isEmpty || boxLines.isEmpty then .ok none
  else
    let toks := flattenTokens textLines boxLines
    if toks.isEmpty then .ok none
    else
      let nt := normalize matchCase target
      if nt.isEmpty then .ok none
      else
        match findFrom matchCase nt toks with
        | none => .ok none
        | some (Except.ok b) => .ok (some b)
        | some (Except.error e) => .error e

example :
    find_target_bboxes false (strL "JohnDoe")
      [[strL "John", strL "Doe", strL "lives", strL "here"]]
      [[[10, 20, 50, 30], [60, 20, 90, 30], [100, 20, 140, 30],
        [150, 20, 190, 30]]] = .ok (some [10, 20, 90, 30]) := by rfl

example :
    find_target_bboxes false (strL "John Doe")
      [[strL "John", strL "Doe", strL "lives", strL "here"]]
      [[[10, 20, 50, 30], [60, 20, 90, 30], [100, 20, 140, 30],
        [150, 20, 190, 30]]] = .ok none := by rfl

example :
    find_target_bboxes false (strL ", .") [[strL ", ."]] [[[1, 2, 3, 4]]] =
      .ok (some [1, 2, 3, 4]) := by rfl

/-- The two `ValueError` cases of `pixel_bbox_to_normalized`
(coordinate_converter.py lines 52-56). -/
inductive ConvError where
  | invalidBbox : ConvError
  | invalidDims : ConvError
deriving DecidableEq

/-- `max(0.0, min(1.0, v))` (coordinate_converter.py lines 73-76). -/
def clamp01 (q : ℚ) : ℚ := max 0 (min 1 q)

/-- `pixel_bbox_to_normalized` (coordinate_converter.py lines 18-78): check
the box has exactly 4 coordinates and the page dimensions are positive,
silently swap inverted corner order, divide by the page dimensions and clamp
each of `(left, top, width, height)` to `[0,1]`.  The source divides Python
ints producing exact binary floats only incidentally; the quotients are
modelled exactly in `ℚ`. -/
def pixel_bbox_to_normalized (bbox_pixels : List Int)
    (page_width page_height : Int) : Except ConvError (ℚ × ℚ × ℚ × ℚ) :=
  match bbox_pixels with
  | [a, b, c, d] =>
    if page_width ≤ 0 || page_height ≤ 0 then .error ConvError.invalidDims
    else
      let x1 := if c < a then c else a
      let x2 := if c < a then a else c
      let y1 := if d < b then d else b
      let y2 := if d < b then b else d
      let left := clamp01 ((x1 : ℚ) / (page_width : ℚ))
      let top := clamp01 ((y1 : ℚ) / (page_height : ℚ))
      let width := clamp01 (((x2 - x1 : Int) : ℚ) / (page_width : ℚ))
      let height := clamp01 (((y2 - y1 : Int) : ℚ) / (page_height : ℚ))
      .ok (left, top, width, height)
  | _ => .error ConvError.invalidBbox

/-- `validate_normalized_coords` (coordinate_converter.py lines 94-123). -/
def validate_normalized_coords (left top width height : ℚ) : Bool :=
  if ¬(0 ≤ left ∧ left ≤ 1 ∧ 0 ≤ top ∧ top ≤ 1) then false
  else if ¬(0 ≤ width ∧ width ≤ 1 ∧ 0 ≤ height ∧ height ≤ 1) then false
  else if 1 < left + width then false
  else if 1 < top + height then false
  else if width ≤ 0 ∨ height ≤ 0 then false
  else true

example : pixel_bbox_to_normalized [1, 0, 3, 1] 1 1 = .ok (1, 0, 1, 1) := by
  simp only [pixel_bbox_to_normalized]
  norm_num [clamp01]
example : pixel_bbox_to_normalized [0, 0, 0, 1] 1 1 = .ok (0, 0, 0, 1) := by
  simp only [pixel_bbox_to_normalized]
  norm_num [clamp01]
example :
    pixel_bbox_to_normalized [100, 200, 350, 230] 1000 1400 =
      .ok (1 / 10, 1 / 7, 1 / 4, 3 / 140) := by
  simp only [pixel_bbox_to_normalized]
  norm_num [clamp01]

/-- `PII_AnnotationBuilder.ENTITY_TYPE_MAP` (annotation_builder.py lines
37-54) as an association list. -/
def ENTITY_TYPE_MAP : List (List Char × List Char) :=
  [(strL "SSN", strL "SSN"),
   (strL "SOCIAL_SECURITY_NUMBER", strL "SSN"),
   (strL "PHONE", strL "PHONE"),
   (strL "PHONE_NUMBER", strL "PHONE"),
   (strL "EMAIL", strL "EMAIL"),
   (strL "EMAIL_ADDRESS", strL "EMAIL"),
   (strL "NAME", strL "NAME"),
   (strL "PERSON", strL "NAME"),
   (strL "ADDRESS", strL "ADDRESS"),
   (strL "LOCATION", strL "ADDRESS"),
   (strL "DATE_OF_BIRTH", strL "DOB"),
   (strL "DOB", strL "DOB"),
   (strL "CREDIT_CARD", strL "CREDIT_CARD"),
   (strL "BANK_ACCOUNT", strL "BANK_ACCOUNT"),
   (strL "DRIVERS_LICENSE", strL "DRIVERS_LICENSE"),
   (strL "PASSPORT", strL "PASSPORT")]

/-- Association-list lookup with a default, modelling Python `dict.get`. -/
def lookupD (key : List Char) (dflt : List Char) :
    List (List Char × List Char) → List Char
  | [] => dflt
  | (k, v) :: rest => if k = key then v else lookupD key dflt rest

/-- `PII_AnnotationBuilder.normalize_entity_type` (annotation_builder.py
lines 65-76): uppercase, replace spaces by underscores, then look the result
up in `ENTITY_TYPE_MAP`, defaulting to itself. -/
def normalize_entity_type (entity_type : List Char) : List Char :=
  let u := (entity_type.map upperChar).map (fun c => if c = ' ' then '_' else c)
  lookupD u u ENTITY_TYPE_MAP

example : normalize_entity_type (strL "SSN") = strL "SSN" := by decide
example : normalize_entity_type (strL "Person") = strL "NAME" := by decide
example : normalize_entity_type (strL "my type") = strL "MY_TYPE" := by decide

/-- `enAnnotationType.annotRedaction` ("Type 2 = redaction",
annotation_builder.py line 123). -/
def annotRedaction : Int := 2

/-- Modelled from the spec: `enAnnotationSource.massActionCreated`
("batch/automated", field 54) comes from the Thrift-generated
`Annotations.ttypes`, which is not under src/; its numeric value is not
visible there, so an arbitrary fixed value stands in for it (no claim
depends on the value). -/
def massActionCreated : Int := 4

/-- The Thrift `Annotation` record restricted to the fields
`create_pii_annotation` populates (annotation_builder.py lines 122-142).
The generated class lives in `gen-py`, outside src/; the field names and
their numeric Thrift tags are taken from the builder's comments. -/
structure Annot where
  eType : Int
  dXPos : ℚ
  dYPos : ℚ
  dWidth : ℚ
  dHeight : ℚ
  sFillColour : List Char
  sLineColour : List Char
  dFillOpacity : ℚ
  dLineOpacity : ℚ
  sReasonCategory : List Char
  sFoundValue : List Char
  sCreatedBy : List Char
  sTimeCreated : List Char
  sModifiedBy : List Char
  sModifiedTime : List Char
  eSource : Int
  iPageLevelID : Int
  iOrder : Int
  iConfidence : Int

/-- The Thrift `AnnotationData` record restricted to the fields
`create_annotation_data` populates (annotation_builder.py lines 161-165). -/
structure AnnotData where
  aAnnots : List Annot
  iPageLevelIDCount : Int
  lPageNumber : Int

/-- `PII_AnnotationBuilder.create_pii_annotation` (annotation_builder.py
lines 78-144).  `creator_name` is the builder's constructor argument and
`timestamp` stands for the `datetime.utcnow().isoformat()` call, an input
from the clock.  With `mask_value` (Python default `True`) the found value
is the placeholder `"***" + normalized_type + "***"`; otherwise it is the
literal `entity_value`.  `order = None` defaults to `page_level_id`. -/
def create_pii_annot (creator_name : List Char) (entity_type : List Char)
    (entity_value : List Char) (normalized_coords : ℚ × ℚ × ℚ × ℚ)
    (confidence : Int) (page_level_id : Int) (order : Option Int)
    (mask_value : Bool) (timestamp : List Char) : Annot :=
  let normalized_type := normalize_entity_type entity_type
  let found_value :=
    if mask_value then strL "***" ++ normalized_type ++ strL "***"
    else entity_value
  let ord := order.getD page_level_id
  { eType := annotRedaction
    dXPos := normalized_coords.1
    dYPos := normalized_coords.2.1
    dWidth := normalized_coords.2.2.1
    dHeight := normalized_coords.2.2.2
    sFillColour := strL "#000000"
    sLineColour := strL "#000000"
    dFillOpacity := 1
    dLineOpacity := 1
    sReasonCategory := normalized_type
    sFoundValue := found_value
    sCreatedBy := creator_name
    sTimeCreated := timestamp
    sModifiedBy := creator_name
    sModifiedTime := timestamp
    eSource := massActionCreated
    iPageLevelID := page_level_id
    iOrder := ord
    iConfidence := confidence }

/-- `PII_AnnotationBuilder.create_annotation_data` (annotation_builder.py
lines 146-165). -/
def create_annot_data (annotations : List Annot) (page_number : Int) :
    AnnotData :=
  { aAnnots := annotations
    iPageLevelIDCount := (annotations.length : Int)
    lPageNumber := page_number }

/-- Modelled from the spec: a value of the field-numbered, schema-versioned
wire form produced by `serialize_to_json` / read by `deserialize_from_json`
(annotation_builder.py lines 167-196).  The Thrift `TJSONProtocol` writer
and reader come from `gen-py` and the thrift runtime, neither under src/;
per §4.3 of the spec the wire form is a structured encoding whose objects
key every field by its numeric tag, with ints, doubles, strings and lists as
leaves. -/
inductive W where
  | wI : Int → W
  | wD : ℚ → W
  | wS : List Char → W
  | wList : List W → W
  | wObj : List (Nat × W) → W

/-- Find the wire value stored under numeric field tag `n`. -/
def lookupTag (n : Nat) : List (Nat × W) → Option W
  | [] => none
  | (m, v) :: rest => if m = n then some v else lookupTag n rest

/-- Read field `n` as a Thrift int. -/
def getTagI (n : Nat) (fs : List (Nat × W)) : Option Int :=
  match lookupTag n fs with
  | some (W.wI v) => some v
  | _ => none

/-- Read field `n` as a Thrift double. -/
def getTagD (n : Nat) (fs : List (Nat × W)) : Option ℚ :=
  match lookupTag n fs with
  | some (W.wD v) => some v
  | _ => none

/-- Read field `n` as a Thrift string. -/
def getTagS (n : Nat) (fs : List (Nat × W)) : Option (List Char) :=
  match lookupTag n fs with
  | some (W.wS v) => some v
  | _ => none

/-- Read field `n` as a Thrift list. -/
def getTagL (n : Nat) (fs : List (Nat × W)) : Option (List W) :=
  match lookupTag n fs with
  | some (W.wList v) => some v
  | _ => none

/-- Modelled from the spec: `Annotation.write` of the generated Thrift code
(not under src/) — one wire object keying each populated field by its
numeric tag.  Tags 12, 17-21, 50, 51, 53, 54 are documented in
annotation_builder.py lines 132-141; the position/colour/opacity tags are
not visible in src/ and are assigned distinct low numbers in declaration
order. -/
def encodeAnnot (a : Annot) : W :=
  W.wObj
    [(1, W.wI a.eType),
     (2, W.wD a.dXPos),
     (3, W.wD a.dYPos),
     (4, W.wD a.dWidth),
     (5, W.wD a.dHeight),
     (7, W.wS a.sFillColour),
     (8, W.wS a.sLineColour),
     (11, W.wD a.dFillOpacity),
     (10, W.wD a.dLineOpacity),
     (50, W.wS a.sReasonCategory),
     (51, W.wS a.sFoundValue),
     (17, W.wS a.sCreatedBy),
     (18, W.wS a.sTimeCreated),
     (19, W.wS a.sModifiedBy),
     (20, W.wS a.sModifiedTime),
     (54, W.wI a.eSource),
     (21, W.wI a.iPageLevelID),
     (12, W.wI a.iOrder),
     (53, W.wI a.iConfidence)]

/-- Decode the type and geometry fields of one annotation. -/
def decodeAnnotPos (fs : List (Nat × W)) : Option (Int × ℚ × ℚ × ℚ × ℚ) := do
  let eT ← getTagI 1 fs
  let xp ← getTagD 2 fs
  let yp ← getTagD 3 fs
  let wd ← getTagD 4 fs
  let ht ← getTagD 5 fs
  pure (eT, xp, yp, wd, ht)

/-- Decode the colour and opacity fields of one annotation. -/
def decodeAnnotStyle (fs : List (Nat × W)) :
    Option (List Char × List Char × ℚ × ℚ) := do
  let fc ← getTagS 7 fs
  let lc ← getTagS 8 fs
  let fo ← getTagD 11 fs
  let lo ← getTagD 10 fs
  pure (fc, lc, fo, lo)

/-- Decode the provenance string fields of one annotation. -/
def decodeAnnotProv (fs : List (Nat × W)) :
    Option (List Char × List Char × List Char × List Char × List Char × List Char) := do
  let rc ← getTagS 50 fs
  let fv ← getTagS 51 fs
  let cb ← getTagS 17 fs
  let tc ← getTagS 18 fs
  let mb ← getTagS 19 fs
  let mt ← getTagS 20 fs
  pure (rc, fv, cb, tc, mb, mt)

/-- Decode the source, id, order and confidence fields of one annotation. -/
def decodeAnnotIds (fs : List (Nat × W)) : Option (Int × Int × Int × Int) := do
  let es ← getTagI 54 fs
  let pl ← getTagI 21 fs
  let od ← getTagI 12 fs
  let cf ← getTagI 53 fs
  pure (es, pl, od, cf)

/-- Modelled from the spec: `Annotation.read` of the generated Thrift code
(not under src/) — look every field up by its numeric tag with its expected
wire type; any missing or mistyped field is a decode error (`none`), never a
partially populated record (§7 of the spec).  The lookups are grouped into
the four helper readers above. -/
def decodeAnnot (w : W) : Option Annot :=
  match w with
  | W.wObj fs => do
    let (eT, xp, yp, wd, ht) ← decodeAnnotPos fs
    let (fc, lc, fo, lo) ← decodeAnnotStyle fs
    let (rc, fv, cb, tc, mb, mt) ← decodeAnnotProv fs
    let (es, pl, od, cf) ← decodeAnnotIds fs
    pure (Annot.mk eT xp yp wd ht fc lc fo lo rc fv cb tc mb mt es pl od cf)
  | _ => none

/-- Decode a wire list of annotations element by element, failing on the
first bad element, as the Thrift list reader does. -/
def decodeAnnotList : List W → Option (List Annot)
  | [] => some []
  | w :: rest =>
    match decodeAnnot w, decodeAnnotList rest with
    | some a, some l => some (a :: l)
    | _, _ => none

/-- Modelled from the spec: `AnnotationData.write` — annotations under tag 1,
`iPageLevelIDCount` under tag 2, `lPageNumber` under tag 5
(annotation_builder.py lines 161-165).  This is the body of
`serialize_to_json` (annotation_builder.py lines 167-180) with the wire text
abstracted to its structured form. -/
def encodeAnnotData (d : AnnotData) : W :=
  W.wObj
    [(1, W.wList (d.aAnnots.map encodeAnnot)),
     (2, W.wI d.iPageLevelIDCount),
     (5, W.wI d.lPageNumber)]

/-- Modelled from the spec: `AnnotationData.read`, the body of
`deserialize_from_json` (annotation_builder.py lines 182-196). -/
def decodeAnnotData (w : W) : Option AnnotData :=
  match w with
  | W.wObj fs =>
    (getTagL 1 fs).bind fun lw =>
    (decodeAnnotList lw).bind fun anns =>
    (getTagI 2 fs).bind fun cnt =>
    (getTagI 5 fs).bind fun pn =>
    some ⟨anns, cnt, pn⟩
  | _ => none

/-- `PII_AnnotationBuilder.build_from_pii_detections` input items
(annotation_builder.py lines 206-212): dictionaries with the keys `type`,
`value`, `normalized_coords` and `confidence`. -/
structure PiiDetection where
  type : List Char
  value : List Char
  normalized_coords : ℚ × ℚ × ℚ × ℚ
  confidence : Int

/-- The `enumerate(pii_detections, start=1)` loop of
`build_from_pii_detections` (annotation_builder.py lines 233-244): the i-th
detection (1-based `start`) becomes an annotation with `page_level_id = i`
and `order = i`, masking left at its default `True`. -/
def buildAnnots (creator_name timestamp : List Char) (start : Int) :
    List PiiDetection → List Annot
  | [] => []
  | d :: rest =>
    create_pii_annot creator_name d.type d.value d.normalized_coords
        d.confidence start (some start) true timestamp ::
      buildAnnots creator_name timestamp (start + 1) rest

/-- `PII_AnnotationBuilder.build_from_pii_detections` (annotation_builder.py
lines 198-252): build the annotation list, wrap it in an `AnnotationData`
for the page, and serialize it. -/
def build_from_pii_detections (creator_name timestamp : List Char)
    (pii_detections : List PiiDetection) (page_number : Int) :
    AnnotData × W :=
  let annot_data := create_annot_data
    (buildAnnots creator_name timestamp 1 pii_detections) page_number
  (annot_data, encodeAnnotData annot_data)

/-- One row of the annotations table written by `AnnotationDBManager`
(annotation_db_manager.py lines 374-378): the identity column `ID`, the five
lookup-key columns, the `Updated` timestamp and the serialized
`Annot_data` payload. -/
structure DBRow where
  id : Nat
  object_id : Int
  field_id : Int
  set_id : Int
  lookup_info1 : List Char
  lookup_info2 : List Char
  updated : Nat
  annot_data : W

/-- One row of the history table written by `save_to_history`
(annotation_db_manager.py lines 740-762). -/
structure HistRow where
  histid : Nat
  set_id : Int
  object_id : Int
  field_id : Int
  lookup_info1 : List Char
  lookup_info2 : List Char
  userid : Int
  username : List Char
  annot_data : W
  modified : Nat

/-- The datastore visible to one `AnnotationDBManager`: the annotations
table, the history table, and the next identity value of each (`@@IDENTITY`
grows by one per insert).  Timestamps (`datetime.now(timezone.utc)`) enter
each operation as an explicit `Nat` parameter. -/
structure DBState where
  rows : List DBRow
  nextId : Nat
  hist : List HistRow
  nextHistId : Nat

/-- The full-lookup-key `WHERE` clause built by `query` when `upsert` passes
all five key fields (annotation_db_manager.py lines 570-600). -/
def matchesKey (object_id field_id set_id : Int)
    (lookup_info1 lookup_info2 : List Char) (r : DBRow) : Bool :=
  r.object_id == object_id && r.field_id == field_id && r.set_id == set_id &&
    r.lookup_info1 == lookup_info1 && r.lookup_info2 == lookup_info2

/-- Insert one row into a list sorted by descending `ID`. -/
def insertDesc (r : DBRow) : List DBRow → List DBRow
  | [] => [r]
  | x :: xs => if x.id ≤ r.id then r :: x :: xs else x :: insertDesc r xs

/-- `ORDER BY ID DESC` (annotation_db_manager.py line 602). -/
def sortByIdDesc : List DBRow → List DBRow
  | [] => []
  | x :: xs => insertDesc x (sortByIdDesc xs)

/-- `query` with all five lookup-key filters and a row limit, as `upsert`
calls it (annotation_db_manager.py lines 547-626, 808-815): filter, order by
descending `ID`, fetch at most `limit` rows. -/
def queryByKey (s : DBState) (object_id field_id set_id : Int)
    (lookup_info1 lookup_info2 : List Char) (limit : Nat) : List DBRow :=
  (sortByIdDesc (s.rows.filter
    (matchesKey object_id field_id set_id lookup_info1 lookup_info2))).take limit

/-- `read` (annotation_db_manager.py lines 505-545): fetch the row whose
`ID` matches, `none` when not found. -/
def readRow (s : DBState) (record_id : Nat) : Option DBRow :=
  s.rows.find? (fun r => r.id == record_id)

/-- `save_to_history` (annotation_db_manager.py lines 703-772): read the
current row and append a copy to the history table stamped with
`userid = 0`, `username = "System"` and the current time; when the source
row is missing nothing is appended and `None` is returned. -/
def saveToHistory (s : DBState) (record_id : Nat) (t : Nat) :
    DBState × Option Nat :=
  match readRow s record_id with
  | none => (s, none)
  | some r =>
    ({ s with
        hist := s.hist ++
          [{ histid := s.nextHistId, set_id := r.set_id,
             object_id := r.object_id, field_id := r.field_id,
             lookup_info1 := r.lookup_info1, lookup_info2 := r.lookup_info2,
             userid := 0, username := strL "System",
             annot_data := r.annot_data, modified := t }],
        nextHistId := s.nextHistId + 1 },
      some s.nextHistId)

/-- `insert` (annotation_db_manager.py lines 345-406): append a new current
row with a fresh identity and timestamp, commit, then — only when the
history table is configured (`cfgHist`) — attempt the best-effort history
append outside the insert's transaction.  `histFail` injects the
environment's possible datastore failure of that append: the exception is
caught and logged (lines 398-404), leaving both the committed row and the
return value untouched.  `newRowFor` is the row the `INSERT` statement
writes. -/
def newRowFor (s : DBState) (annot_data : AnnotData)
    (object_id field_id set_id : Int) (lookup_info1 lookup_info2 : List Char)
    (t : Nat) : DBRow :=
  { id := s.nextId, object_id := object_id, field_id := field_id,
    set_id := set_id, lookup_info1 := lookup_info1,
    lookup_info2 := lookup_info2, updated := t,
    annot_data := encodeAnnotData annot_data }

/-- `insert` continued: append the new current row, then run the guarded
best-effort history append. -/
def insert (cfgHist histFail : Bool) (s : DBState) (annot_data : AnnotData)
    (object_id field_id set_id : Int) (lookup_info1 lookup_info2 : List Char)
    (t : Nat) : DBState × Nat :=
  let row : DBRow :=
    newRowFor s annot_data object_id field_id set_id lookup_info1 lookup_info2 t
  let s1 : DBState := { s with rows := s.rows ++ [row], nextId := s.nextId + 1 }
  if cfgHist && !histFail then ((saveToHistory s1 s.nextId t).1, s.nextId)
  else (s1, s.nextId)

/-- The optional keyword arguments of `update`
(annotation_db_manager.py lines 408-417). -/
structure UpdateFields where
  annot_data : Option AnnotData
  object_id : Option Int
  field_id : Option Int
  set_id : Option Int
  lookup_info1 : Option (List Char)
  lookup_info2 : Option (List Char)

/-- `if not updates:` — no field at all was provided
(annotation_db_manager.py line 464). -/
def UpdateFields.isEmpty (f : UpdateFields) : Bool :=
  f.annot_data.isNone && f.object_id.isNone && f.field_id.isNone &&
    f.set_id.isNone && f.lookup_info1.isNone && f.lookup_info2.isNone

/-- The `SET` clause of `update` applied to one row (annotation_db_manager.py
lines 436-470): each provided field overwrites the stored one, the others
are untouched, and `Updated` is always refreshed. -/
def applyFields (f : UpdateFields) (t : Nat) (r : DBRow) : DBRow :=
  { r with
    annot_data :=
      match f.annot_data with
      | some ad => encodeAnnotData ad
      | none => r.annot_data,
    object_id := f.object_id.getD r.object_id,
    field_id := f.field_id.getD r.field_id,
    set_id := f.set_id.getD r.set_id,
    lookup_info1 := f.lookup_info1.getD r.lookup_info1,
    lookup_info2 := f.lookup_info2.getD r.lookup_info2,
    updated := t }

/-- `update` (annotation_db_manager.py lines 408-503): with no provided
field, warn and return `False` without touching the datastore; otherwise run
`UPDATE ... WHERE ID = ?`, and when `rowcount > 0` return `True` after the
same guarded best-effort history append as `insert`; a missing `record_id`
yields `False`, a normal outcome rather than an error. -/
def update (cfgHist histFail : Bool) (s : DBState) (record_id : Nat)
    (f : UpdateFields) (t : Nat) : DBState × Bool :=
  if f.isEmpty then (s, false)
  else
    let rows2 := s.rows.map
      (fun r => if r.id == record_id then applyFields f t r else r)
    let affected := s.rows.any (fun r => r.id == record_id)
    let s1 : DBState := { s with rows := rows2 }
    if affected then
      if cfgHist && !histFail then ((saveToHistory s1 record_id t).1, true)
      else (s1, true)
    else (s1, false)

/-- The `annot_data`-only field set that `upsert` passes to `update`
(annotation_db_manager.py line 825). -/
def annotDataOnly (annot_data : AnnotData) : UpdateFields :=
  { annot_data := some annot_data, object_id := none, field_id := none,
    set_id := none, lookup_info1 := none, lookup_info2 := none }

/-- `upsert` (annotation_db_manager.py lines 774-843): query by the full
lookup key with `limit=1`; update the found row's payload (ignoring the
update's boolean result) and return `(id, False)`, or insert a new row and
return `(new_id, True)`. -/
def upsert (cfgHist histFail : Bool) (s : DBState) (annot_data : AnnotData)
    (object_id field_id set_id : Int) (lookup_info1 lookup_info2 : List Char)
    (t : Nat) : DBState × Nat × Bool :=
  match queryByKey s object_id field_id set_id lookup_info1 lookup_info2 1 with
  | r :: _ =>
    ((update cfgHist histFail s r.id (annotDataOnly annot_data) t).1, r.id, false)
  | [] =>
    let p := insert cfgHist histFail s annot_data object_id field_id set_id
      lookup_info1 lookup_info2 t
    (p.1, p.2, true)

/-- The whitespace-separated words of a text, in order, used to state the
spec's "collapse runs of whitespace to a single space, trim" step
independently of the source's regex implementation. -/
def splitWS (l : List Char) : List (List Char) :=
  match l with
  | [] => []
  | c :: rest =>
    if isWS c then splitWS rest
    else (c :: rest.takeWhile (fun x => !isWS x)) ::
      splitWS (rest.dropWhile (fun x => !isWS x))
termination_by l.length
decreasing_by
  · simp only [List.length_cons]; omega
  · simp only [List.length_cons]
    have := (List.dropWhile_suffix (l := rest) (fun x => !isWS x)).length_le
    omega

/-- Join words with single spaces. -/
def joinSp : List (List Char) → List Char
  | [] => []
  | [w] => w
  | w :: v :: ws => w ++ ' ' :: joinSp (v :: ws)

/-- The spec's §4.2 step-2 normalization pipeline, with its "trailing
punctuation" corrected to stripping the punctuation set from both ends:
collapse whitespace runs to single spaces and trim (equivalently: join the
whitespace-separated words with single spaces), lowercase unless matching
case-sensitively, then strip `,.:;-` from both ends. -/
def specNormalizeBothEnds (matchCase : Bool) (text : List Char) : List Char :=
  let words := joinSp (splitWS text)
  stripBoth isPunct (if matchCase then words else words.map lowerChar)


lemma dropWhile_eq_self_of_all {p : Char → Bool} :
    ∀ {l : List Char}, (∀ c ∈ l, p c = false) → l.dropWhile p = l
  | [], _ => rfl
  | c :: l, h => by
    have hc := h c (List.mem_cons_self c l)
    simp [List.dropWhile_cons, hc]

lemma dropWhile_ne_nil_of_mem {p : Char → Bool} :
    ∀ {l : List Char} {c : Char}, c ∈ l → p c = false → l.dropWhile p ≠ []
  | [], _, hm, _ => by cases hm
  | a :: l, c, hm, hc => by
    by_cases ha : p a
    · have hne : a ≠ c := by intro h; rw [h] at ha; rw [hc] at ha; cases ha
      have : c ∈ l := by
        rcases List.mem_cons.1 hm with h | h
        · exact absurd h.symm hne
        · exact h
      simp only [List.dropWhile_cons, ha, if_true]
      exact dropWhile_ne_nil_of_mem this hc
    · simp [List.dropWhile_cons, ha]

lemma head_dropWhile_false {p : Char → Bool} :
    ∀ {l : List Char} {c : Char} {t : List Char},
      l.dropWhile p = c :: t → p c = false
  | [], _, _, h => by cases h
  | a :: l, c, t, h => by
    by_cases ha : p a
    · rw [List.dropWhile_cons, if_pos ha] at h
      exact head_dropWhile_false h
    · rw [List.dropWhile_cons, if_neg ha] at h
      cases h
      exact Bool.eq_false_iff.2 ha

lemma dropWhile_append_of_ne_nil {p : Char → Bool} {a : List Char}
    (b : List Char) (h : a.dropWhile p ≠ []) :
    (a ++ b).dropWhile p = a.dropWhile p ++ b := by
  induction a with
  | nil => exact absurd rfl h
  | cons x a ih =>
    by_cases hx : p x
    · rw [List.cons_append, List.dropWhile_cons, if_pos hx,
        List.dropWhile_cons, if_pos hx]
      rw [List.dropWhile_cons, if_pos hx] at h
      exact ih h
    · rw [List.cons_append, List.dropWhile_cons, if_neg hx,
        List.dropWhile_cons, if_neg hx, List.cons_append]

lemma stripTail_all_false {p : Char → Bool} {w : List Char}
    (h : ∀ c ∈ w, p c = false) : stripTail p w = w := by
  unfold stripTail
  rw [dropWhile_eq_self_of_all (fun c hc => h c (List.mem_reverse.1 hc)),
    List.reverse_reverse]

lemma stripTail_ne_nil {p : Char → Bool} {e : Char} {t : List Char}
    (he : p e = false) : stripTail p (e :: t) ≠ [] := by
  unfold stripTail
  intro hcon
  have : (e :: t).reverse.dropWhile p = [] := by
    have := congrArg List.reverse hcon
    rwa [List.reverse_reverse, List.reverse_nil] at this
  exact dropWhile_ne_nil_of_mem (by simp) he this

lemma stripTail_append_of_ne_nil {p : Char → Bool} (x : List Char)
    {y : List Char} (h : stripTail p y ≠ []) :
    stripTail p (x ++ y) = x ++ stripTail p y := by
  unfold stripTail at *
  have hy : y.reverse.dropWhile p ≠ [] := by
    intro hcon
    rw [hcon] at h
    exact h rfl
  rw [List.reverse_append, dropWhile_append_of_ne_nil _ hy,
    List.reverse_append, List.reverse_reverse]

lemma stripTail_append_true {p : Char → Bool} {c : Char} (w : List Char)
    (hc : p c = true) : stripTail p (w ++ [c]) = stripTail p w := by
  unfold stripTail
  rw [List.reverse_append, List.reverse_cons, List.reverse_nil,
    List.nil_append, List.singleton_append, List.dropWhile_cons, if_pos hc]

lemma collapseWS_cons_false {c : Char} {l : List Char} (h : isWS c = false) :
    collapseWS (c :: l) = c :: collapseWS l := by
  cases l with
  | nil => simp [collapseWS, h]
  | cons d r => simp [collapseWS, h]

lemma collapseWS_append_all_false {w : List Char} (l : List Char)
    (h : ∀ c ∈ w, isWS c = false) :
    collapseWS (w ++ l) = w ++ collapseWS l := by
  induction w with
  | nil => rfl
  | cons c w ih =>
    rw [List.cons_append, collapseWS_cons_false (h c (by simp)),
      ih (fun x hx => h x (by simp [hx])), List.cons_append]

lemma collapseWS_cons_true :
    ∀ (l : List Char) (c : Char), isWS c = true →
      collapseWS (c :: l) = ' ' :: collapseWS (l.dropWhile isWS)
  | [], c, h => by simp [collapseWS, h]
  | d :: r, c, h => by
    by_cases hd : isWS d
    · rw [show collapseWS (c :: d :: r) = collapseWS (d :: r) by
        simp [collapseWS, h, hd]]
      rw [collapseWS_cons_true r d hd, List.dropWhile_cons, if_pos hd]
    · have hd' : isWS d = false := Bool.eq_false_iff.2 hd
      rw [show collapseWS (c :: d :: r) = ' ' :: collapseWS (d :: r) by
        simp [collapseWS, h, hd'], List.dropWhile_cons, if_neg hd]

lemma splitWS_nil : splitWS [] = [] := by
  rw [splitWS]

lemma splitWS_cons_true {c : Char} {l : List Char} (h : isWS c = true) :
    splitWS (c :: l) = splitWS l := by
  rw [splitWS]
  simp [h]

lemma splitWS_cons_false {c : Char} {l : List Char} (h : isWS c = false) :
    splitWS (c :: l) =
      (c :: l.takeWhile (fun x => !isWS x)) ::
        splitWS (l.dropWhile (fun x => !isWS x)) := by
  rw [splitWS]
  simp [h]

lemma splitWS_dropWhile (l : List Char) :
    splitWS (l.dropWhile isWS) = splitWS l := by
  induction l with
  | nil => rfl
  | cons c r ih =>
    by_cases hc : isWS c
    · rw [List.dropWhile_cons, if_pos hc, ih, splitWS_cons_true hc]
    · rw [List.dropWhile_cons, if_neg hc]

lemma stripTail_word_space_append {z : List Char} (w : List Char)
    (hz : stripTail isWS z ≠ []) :
    stripTail isWS (w ++ ' ' :: z) = w ++ ' ' :: stripTail isWS z := by
  have h1 : w ++ ' ' :: z = (w ++ [' ']) ++ z := by simp
  rw [h1, stripTail_append_of_ne_nil _ hz]
  simp

lemma collapse_strip_eq_joinSp :
    ∀ (n : Nat) (l : List Char), l.length ≤ n →
      stripBoth isWS (collapseWS l) = joinSp (splitWS l) := by
  intro n
  induction n with
  | zero =>
    intro l hl
    rw [List.length_eq_zero.1 (Nat.le_zero.1 hl), splitWS_nil]
    rfl
  | succ n ih =>
    intro l hl
    match l with
    | [] => rw [splitWS_nil]; rfl
    | c :: rest =>
      have hrest : rest.length ≤ n := by
        simp only [List.length_cons] at hl
        omega
      by_cases hc : isWS c
      · -- leading whitespace is discarded by both sides
        have hrd : (rest.dropWhile isWS).length ≤ n := by
          have := (List.dropWhile_suffix (l := rest) isWS).length_le
          omega
        rw [splitWS_cons_true hc, ← splitWS_dropWhile rest,
          ← ih (rest.dropWhile isWS) hrd, collapseWS_cons_true rest c hc]
        unfold stripBoth
        rw [List.dropWhile_cons, if_pos (by decide : isWS ' ' = true)]
      · -- a maximal word w starts at c
        have hc' : isWS c = false := Bool.eq_false_iff.2 hc
        have hwall : ∀ x ∈ c :: rest.takeWhile (fun x => !isWS x),
            isWS x = false := by
          intro x hx
          rcases List.mem_cons.1 hx with h | h
          · rw [h]; exact hc'
          · have := List.mem_takeWhile_imp h
            simpa using this
        have hdecomp : c :: rest =
            (c :: rest.takeWhile (fun x => !isWS x)) ++
              rest.dropWhile (fun x => !isWS x) := by
          rw [List.cons_append, List.takeWhile_append_dropWhile]
        rw [splitWS_cons_false hc']
        conv_lhs => rw [hdecomp]
        rw [collapseWS_append_all_false _ hwall]
        unfold stripBoth
        rw [show ((c :: rest.takeWhile (fun x => !isWS x)) ++
            collapseWS (rest.dropWhile (fun x => !isWS x))).dropWhile isWS =
            (c :: rest.takeWhile (fun x => !isWS x)) ++
              collapseWS (rest.dropWhile (fun x => !isWS x)) by
          rw [List.cons_append, List.dropWhile_cons, if_neg hc]]
        match hrc : rest.dropWhile (fun x => !isWS x) with
        | [] =>
          rw [show collapseWS [] = [] from rfl, List.append_nil,
            stripTail_all_false hwall, splitWS_nil]
          rfl
        | d :: r2 =>
          have hd : isWS d = true := by
            have := head_dropWhile_false (p := fun x => !isWS x) hrc
            simpa using this
          rw [collapseWS_cons_true r2 d hd]
          have hsplit : splitWS (d :: r2) = splitWS (r2.dropWhile isWS) := by
            rw [splitWS_cons_true hd, splitWS_dropWhile]
          rw [hsplit]
          match hr0c : r2.dropWhile isWS with
          | [] =>
            rw [show collapseWS [] = [] from rfl,
              show ((c :: rest.takeWhile (fun x => !isWS x)) ++ [' ']) =
                ((c :: rest.takeWhile (fun x => !isWS x)) ++ [' ']) from rfl,
              stripTail_append_true _ (by decide : isWS ' ' = true),
              stripTail_all_false hwall, splitWS_nil]
            rfl
          | e :: t =>
            have he : isWS e = false := head_dropWhile_false hr0c
            have hlen : (e :: t).length ≤ n := by
              have l1 : (r2.dropWhile isWS).length ≤ r2.length :=
                (List.dropWhile_suffix isWS).length_le
              have l2 : (rest.dropWhile (fun x => !isWS x)).length ≤
                  rest.length := (List.dropWhile_suffix _).length_le
              rw [hrc] at l2
              rw [hr0c] at l1
              simp only [List.length_cons] at l1 l2 ⊢
              omega
            have hIH := ih (e :: t) hlen
            unfold stripBoth at hIH
            rw [collapseWS_cons_false he, List.dropWhile_cons,
              if_neg (by simp [he])] at hIH
            have hne : stripTail isWS (e :: collapseWS t) ≠ [] :=
              stripTail_ne_nil he
            rw [collapseWS_cons_false he,
              stripTail_word_space_append _ hne, hIH]
            obtain ⟨z, zs, hsc⟩ : ∃ z zs, splitWS (e :: t) = z :: zs := by
              rw [splitWS_cons_false he]
              exact ⟨_, _, rfl⟩
            rw [hsc]
            rfl

/-- The words-and-single-spaces reading of the collapse-and-trim steps agrees
with the source's regex implementation. -/
lemma collapse_strip_eq_joinSp_all (l : List Char) :
    stripBoth isWS (collapseWS l) = joinSp (splitWS l) :=
  collapse_strip_eq_joinSp l.length l le_rfl

/-- The source's `normalize` coincides everywhere with the spec pipeline in
its both-ends-stripping form. -/
lemma normalize_eq_specNormalizeBothEnds (matchCase : Bool) (text : List Char) :
    normalize matchCase text = specNormalizeBothEnds matchCase text := by
  simp only [normalize, specNormalizeBothEnds, collapse_strip_eq_joinSp_all]

example : specNormalizeBothEnds false (strL " John   DOE ,x") = strL "john doe ,x" := by
  rw [← normalize_eq_specNormalizeBothEnds]
  decide

/-- The text of a token window as the inner loop accumulates it: raw token
texts concatenated with no separator. -/
def textConcat : List Token → List Char
  | [] => []
  | t :: ts => t.text ++ textConcat ts

/-- All prefixes of a list, shortest first. -/
def initsOf {α : Type} : List α → List (List α)
  | [] => [[]]
  | x :: xs => [] :: (initsOf xs).map (fun l => x :: l)

/-- All suffixes of a list, longest first. -/
def tailsOf {α : Type} : List α → List (List α)
  | [] => [[]]
  | x :: xs => (x :: xs) :: tailsOf xs

/-- Every contiguous window of the flattened token stream — the windows the
sliding-window scan of `find_target_bboxes` can ever compare against the
target. -/
def contiguousWindows (l : List Token) : List (List Token) :=
  concatLists ((tailsOf l).map initsOf)

lemma mem_concatLists {α : Type} {a : α} :
    ∀ {L : List (List α)}, a ∈ concatLists L ↔ ∃ x ∈ L, a ∈ x
  | [] => by simp [concatLists]
  | x :: L => by
    simp [concatLists, List.mem_append, mem_concatLists (L := L)]

lemma mem_initsOf_of_append {α : Type} :
    ∀ (w post : List α), w ∈ initsOf (w ++ post)
  | [], post => by
    cases post <;> simp [initsOf]
  | x :: w, post => by
    simp only [initsOf, List.cons_append, List.mem_cons, List.mem_map]
    exact Or.inr ⟨w, mem_initsOf_of_append w post, rfl⟩

lemma mem_tailsOf_of_append {α : Type} :
    ∀ (pre s : List α), s ∈ tailsOf (pre ++ s)
  | [], s => by
    cases s <;> simp [tailsOf]
  | x :: pre, s => by
    simp only [tailsOf, List.cons_append, List.mem_cons]
    exact Or.inr (mem_tailsOf_of_append pre s)

lemma window_mem_contiguousWindows {toks pre w post : List Token}
    (h : toks = pre ++ (w ++ post)) : w ∈ contiguousWindows toks := by
  unfold contiguousWindows
  rw [mem_concatLists]
  refine ⟨initsOf (w ++ post), List.mem_map_of_mem initsOf ?_,
    mem_initsOf_of_append w post⟩
  rw [h]
  exact mem_tailsOf_of_append pre (w ++ post)

/-- Any result of the inner window loop comes from a window that is a prefix
of the remaining tokens, whose accumulated text normalizes to the target,
and whose box is the union rectangle of exactly that window. -/
lemma scanFrom_some (mc : Bool) (nt : List Char) :
    ∀ (rest : List Token) (acc : List Char) (win : List Token)
      (r : Except Unit (List Int)),
      scanFrom mc nt acc win rest = some r →
      ∃ w post, rest = w ++ post ∧
        normalize mc (acc ++ textConcat w) = nt ∧ r = unionBox (win ++ w) := by
  intro rest
  induction rest with
  | nil =>
    intro acc win r h
    cases h
  | cons t rest ih =>
    intro acc win r h
    simp only [scanFrom] at h
    by_cases hm : normalize mc (acc ++ t.text) = nt
    · rw [if_pos hm] at h
      refine ⟨[t], rest, rfl, ?_, ?_⟩
      · simpa [textConcat] using hm
      · cases h
        rfl
    · rw [if_neg hm] at h
      by_cases hb : (normalize mc (acc ++ t.text)).length > nt.length + 10
      · rw [if_pos hb] at h
        cases h
      · rw [if_neg hb] at h
        obtain ⟨w, post, hdec, hnorm, hr⟩ := ih (acc ++ t.text) (win ++ [t]) r h
        refine ⟨t :: w, post, by rw [hdec]; rfl, ?_, ?_⟩
        · rw [show acc ++ textConcat (t :: w) = (acc ++ t.text) ++ textConcat w by
            simp [textConcat]]
          exact hnorm
        · rw [hr]
          congr 1
          simp

/-- Any result of the outer loop comes from some contiguous window whose
text normalizes to the target. -/
lemma findFrom_some (mc : Bool) (nt : List Char) :
    ∀ (ts : List Token) (r : Except Unit (List Int)),
      findFrom mc nt ts = some r →
      ∃ pre w post, ts = pre ++ (w ++ post) ∧
        normalize mc (textConcat w) = nt ∧ r = unionBox w := by
  intro ts
  induction ts with
  | nil =>
    intro r h
    cases h
  | cons t rest ih =>
    intro r h
    simp only [findFrom] at h
    by_cases hskip : (normalize mc t.text).isEmpty
    · rw [if_pos hskip] at h
      obtain ⟨pre, w, post, hdec, hnorm, hr⟩ := ih r h
      exact ⟨t :: pre, w, post, by rw [List.cons_append, hdec], hnorm, hr⟩
    · rw [if_neg hskip] at h
      cases hscan : scanFrom mc nt [] [] (t :: rest) with
      | some r0 =>
        rw [hscan] at h
        injection h with h2
        subst h2
        obtain ⟨w, post, hdec, hnorm, hr⟩ :=
          scanFrom_some mc nt (t :: rest) [] [] _ hscan
        exact ⟨[], w, post, by rw [hdec]; rfl, by simpa using hnorm,
          by simpa using hr⟩
      | none =>
        rw [hscan] at h
        obtain ⟨pre, w, post, hdec, hnorm, hr⟩ := ih r h
        exact ⟨t :: pre, w, post, by rw [List.cons_append, hdec], hnorm, hr⟩

lemma decodeAnnot_encodeAnnot (a : Annot) :
    decodeAnnot (encodeAnnot a) = some a := rfl

lemma decodeAnnotList_map :
    ∀ (l : List Annot), decodeAnnotList (l.map encodeAnnot) = some l
  | [] => rfl
  | a :: rest => by
    simp only [List.map_cons, decodeAnnotList, decodeAnnot_encodeAnnot,
      decodeAnnotList_map rest]

lemma decode_encode_annotData (d : AnnotData) :
    decodeAnnotData (encodeAnnotData d) = some d := by
  simp only [encodeAnnotData, decodeAnnotData, getTagL, getTagI, lookupTag]
  norm_num
  rw [decodeAnnotList_map]
  rfl

lemma saveToHistory_rows (s : DBState) (rid t : Nat) :
    (saveToHistory s rid t).1.rows = s.rows := by
  unfold saveToHistory
  cases readRow s rid <;> rfl

lemma saveToHistory_hist_len (s : DBState) (rid t : Nat)
    (h : ∃ r ∈ s.rows, (r.id == rid) = true) :
    (saveToHistory s rid t).1.hist.length = s.hist.length + 1 := by
  have hs : (readRow s rid).isSome := by
    unfold readRow
    rw [List.find?_isSome]
    exact h
  unfold saveToHistory
  cases hx : readRow s rid with
  | none => rw [hx] at hs; cases hs
  | some r => simp

lemma insert_result (cfgHist histFail : Bool) (s : DBState) (ad : AnnotData)
    (oid fid sid : Int) (li1 li2 : List Char) (t : Nat) :
    (insert cfgHist histFail s ad oid fid sid li1 li2 t).2 = s.nextId := by
  unfold insert
  split <;> rfl

lemma insert_rows (cfgHist histFail : Bool) (s : DBState) (ad : AnnotData)
    (oid fid sid : Int) (li1 li2 : List Char) (t : Nat) :
    (insert cfgHist histFail s ad oid fid sid li1 li2 t).1.rows =
      s.rows ++ [newRowFor s ad oid fid sid li1 li2 t] := by
  unfold insert
  split
  · rw [saveToHistory_rows]
  · rfl

lemma insert_hist_len_ok (s : DBState) (ad : AnnotData)
    (oid fid sid : Int) (li1 li2 : List Char) (t : Nat) :
    (insert true false s ad oid fid sid li1 li2 t).1.hist.length =
      s.hist.length + 1 := by
  unfold insert
  rw [if_pos (by rfl)]
  rw [saveToHistory_hist_len]
  refine ⟨newRowFor s ad oid fid sid li1 li2 t, by simp, ?_⟩
  simp [newRowFor]

lemma matchesKey_newRowFor (s : DBState) (ad : AnnotData)
    (oid fid sid : Int) (li1 li2 : List Char) (t : Nat) :
    matchesKey oid fid sid li1 li2 (newRowFor s ad oid fid sid li1 li2 t) =
      true := by
  simp [matchesKey, newRowFor]

lemma applyFields_id (f : UpdateFields) (t : Nat) (r : DBRow) :
    (applyFields f t r).id = r.id := rfl

lemma matchesKey_applyFields_annotDataOnly (ad : AnnotData)
    (oid fid sid : Int) (li1 li2 : List Char) (t : Nat) (r : DBRow) :
    matchesKey oid fid sid li1 li2 (applyFields (annotDataOnly ad) t r) =
      matchesKey oid fid sid li1 li2 r := rfl

lemma annotDataOnly_not_isEmpty (ad : AnnotData) :
    (annotDataOnly ad).isEmpty = false := rfl

lemma update_result (cfgHist histFail : Bool) (s : DBState) (rid : Nat)
    (f : UpdateFields) (t : Nat) (hne : f.isEmpty = false) :
    (update cfgHist histFail s rid f t).2 =
      s.rows.any (fun r => r.id == rid) := by
  unfold update
  rw [if_neg (by rw [hne]; exact Bool.false_ne_true)]
  by_cases haff : s.rows.any (fun r => r.id == rid) = true
  · rw [haff]
    simp only [if_true]
    split <;> rfl
  · rw [Bool.eq_false_iff.2 haff]
    simp

lemma update_rows (cfgHist histFail : Bool) (s : DBState) (rid : Nat)
    (f : UpdateFields) (t : Nat) (hne : f.isEmpty = false) :
    (update cfgHist histFail s rid f t).1.rows =
      s.rows.map (fun r => if r.id == rid then applyFields f t r else r) := by
  unfold update
  rw [if_neg (by rw [hne]; exact Bool.false_ne_true)]
  by_cases haff : s.rows.any (fun r => r.id == rid) = true
  · rw [haff]
    simp only [if_true]
    split
    · rw [saveToHistory_rows]
    · rfl
  · rw [Bool.eq_false_iff.2 haff]
    simp

lemma update_hist_len_ok (s : DBState) (rid : Nat) (f : UpdateFields)
    (t : Nat) (hne : f.isEmpty = false)
    (hex : ∃ r ∈ s.rows, (r.id == rid) = true) :
    (update true false s rid f t).1.hist.length = s.hist.length + 1 := by
  obtain ⟨r, hm, hr⟩ := hex
  have haff : s.rows.any (fun r => r.id == rid) = true :=
    List.any_eq_true.mpr ⟨r, hm, hr⟩
  unfold update
  rw [if_neg (by rw [hne]; exact Bool.false_ne_true), haff]
  simp only [if_true, Bool.and_self, Bool.not_false, Bool.and_true]
  rw [saveToHistory_hist_len]
  refine ⟨applyFields f t r, ?_, ?_⟩
  · refine List.mem_map.mpr ⟨r, hm, ?_⟩
    rw [if_pos hr]
  · rw [applyFields_id]
    exact hr

lemma buildAnnots_getElem :
    ∀ (dets : List PiiDetection) (creator ts : List Char) (start : Int)
      (i : Nat) (d : PiiDetection), dets[i]? = some d →
      (buildAnnots creator ts start dets)[i]? =
        some (create_pii_annot creator d.type d.value d.normalized_coords
          d.confidence (start + (i : Int)) (some (start + (i : Int))) true ts)
  | [], _, _, _, i, d, hd => by cases hd
  | d0 :: rest, creator, ts, start, 0, d, hd => by
    simp only [List.getElem?_cons_zero, Option.some.injEq] at hd
    subst hd
    simp [buildAnnots]
  | d0 :: rest, creator, ts, start, i + 1, d, hd => by
    simp only [List.getElem?_cons_succ] at hd
    have := buildAnnots_getElem rest creator ts (start + 1) i d hd
    simp only [buildAnnots, List.getElem?_cons_succ]
    rw [this]
    congr 2 <;> push_cast <;> ring_nf

/-- C1: in a detection list containing an entry of type "SSN", building
annotations with the default masking flag yields an annotation whose
`found_value` is exactly the placeholder `"***SSN***"` — which contains no
digit, hence never the literal PII digits — and the literal value is used
only when `mask_value` is explicitly disabled in `create_pii_annotation`. -/
theorem ssn_default_masking (creator ts : List Char)
    (dets : List PiiDetection) (pn : Int) (i : Nat) (d : PiiDetection)
    (hd : dets[i]? = some d) (hty : d.type = strL "SSN") :
    (∃ a, ((build_from_pii_detections creator ts dets pn).1.aAnnots)[i]? =
        some a ∧
      a.sFoundValue = strL "***SSN***" ∧
      (∀ c ∈ a.sFoundValue, c.isDigit = false)) ∧
    (∀ (ety ev : List Char) (nc : ℚ × ℚ × ℚ × ℚ) (conf plid : Int)
      (ord : Option Int),
      (create_pii_annot creator ety ev nc conf plid ord false ts).sFoundValue =
        ev) := by
  constructor
  · have hb : (build_from_pii_detections creator ts dets pn).1.aAnnots =
        buildAnnots creator ts 1 dets := rfl
    rw [hb, buildAnnots_getElem dets creator ts 1 i d hd]
    refine ⟨_, rfl, ?_, ?_⟩
    · rw [show (create_pii_annot creator d.type d.value d.normalized_coords
          d.confidence (1 + (i : Int)) (some (1 + (i : Int))) true ts).sFoundValue =
          strL "***" ++ normalize_entity_type d.type ++ strL "***" from rfl, hty]
      decide
    · rw [show (create_pii_annot creator d.type d.value d.normalized_coords
          d.confidence (1 + (i : Int)) (some (1 + (i : Int))) true ts).sFoundValue =
          strL "***" ++ normalize_entity_type d.type ++ strL "***" from rfl, hty]
      decide
  · intro ety ev nc conf plid ord
    rfl

/-- The single-SSN detection list of the spec's §8 masking property. -/
def c1Det0 : PiiDetection :=
  { type := strL "SSN", value := strL "123-45-6789",
    normalized_coords := (0, 0, 1, 1), confidence := 98 }

/-- The detection list `[{"type":"SSN","value":"123-45-6789",...}]`. -/
def c1Dets : List PiiDetection := [c1Det0]

/-- Witness for C1 at the spec's own concrete input. -/
theorem ssn_default_masking_witness :
    (∃ a, ((build_from_pii_detections (strL "pii_pipeline") (strL "T0")
        c1Dets 0).1.aAnnots)[0]? = some a ∧
      a.sFoundValue = strL "***SSN***" ∧
      (∀ c ∈ a.sFoundValue, c.isDigit = false)) ∧
    (∀ (ety ev : List Char) (nc : ℚ × ℚ × ℚ × ℚ) (conf plid : Int)
      (ord : Option Int),
      (create_pii_annot (strL "pii_pipeline") ety ev nc conf plid ord false
        (strL "T0")).sFoundValue = ev) :=
  ssn_default_masking (strL "pii_pipeline") (strL "T0") c1Dets 0 0 c1Det0
    rfl rfl

/-- C10: with masking enabled the placeholder is built from the normalized
entity type — the value stored as the annotation's reason category — as
`"***" ++ reason_category ++ "***"`; the raw type "Person" therefore yields
"***NAME***" and the unknown raw type "my type" yields "***MY_TYPE***". -/
theorem masked_value_uses_reason_category :
    (∀ (creator ety ev : List Char) (nc : ℚ × ℚ × ℚ × ℚ) (conf plid : Int)
      (ord : Option Int) (ts : List Char),
      (create_pii_annot creator ety ev nc conf plid ord true ts).sFoundValue =
        strL "***" ++
          (create_pii_annot creator ety ev nc conf plid ord true
            ts).sReasonCategory ++ strL "***") ∧
    normalize_entity_type (strL "Person") = strL "NAME" ∧
    normalize_entity_type (strL "my type") = strL "MY_TYPE" ∧
    (∀ (creator ev : List Char) (nc : ℚ × ℚ × ℚ × ℚ) (conf plid : Int)
      (ord : Option Int) (ts : List Char),
      (create_pii_annot creator (strL "Person") ev nc conf plid ord true
          ts).sFoundValue = strL "***NAME***" ∧
      (create_pii_annot creator (strL "my type") ev nc conf plid ord true
          ts).sFoundValue = strL "***MY_TYPE***") := by
  refine ⟨fun _ _ _ _ _ _ _ _ => rfl, by decide, by decide, ?_⟩
  intro creator ev nc conf plid ord ts
  constructor
  · show strL "***" ++ normalize_entity_type (strL "Person") ++ strL "***" = _
    decide
  · show strL "***" ++ normalize_entity_type (strL "my type") ++ strL "***" = _
    decide

/-- C3: for every Annotation Page satisfying the validity invariant
`count = len(annotations)`, decoding the encoded wire form reproduces the
page exactly — same page number, same count, and every annotation field
identical (the decoded record equals the original). -/
theorem annot_page_roundtrip (d : AnnotData)
    (_hvalid : d.iPageLevelIDCount = (d.aAnnots.length : Int)) :
    decodeAnnotData (encodeAnnotData d) = some d :=
  decode_encode_annotData d

/-- A concrete valid one-annotation page. -/
def c3Page : AnnotData :=
  { aAnnots := [create_pii_annot (strL "pii_pipeline") (strL "SSN")
      (strL "123-45-6789") (0, 0, 1, 1) 98 1 none true (strL "T0")],
    iPageLevelIDCount := 1, lPageNumber := 0 }

/-- Witness for C3 on a concrete valid page. -/
theorem annot_page_roundtrip_witness :
    decodeAnnotData (encodeAnnotData c3Page) = some c3Page :=
  annot_page_roundtrip c3Page rfl

/-- C9: a failing best-effort history append after a successful primary
insert or update is absorbed: the operation returns the same result and
leaves the same rows as in the non-failing run, and the history table is
simply left unchanged — the committed primary write is never rolled back. -/
theorem history_failure_isolated (cfgHist : Bool) (s : DBState)
    (ad : AnnotData) (oid fid sid : Int) (li1 li2 : List Char)
    (record_id : Nat) (f : UpdateFields) (t : Nat) :
    ((insert cfgHist true s ad oid fid sid li1 li2 t).2 =
      (insert cfgHist false s ad oid fid sid li1 li2 t).2) ∧
    ((insert cfgHist true s ad oid fid sid li1 li2 t).1.rows =
      (insert cfgHist false s ad oid fid sid li1 li2 t).1.rows) ∧
    ((insert cfgHist true s ad oid fid sid li1 li2 t).1.hist = s.hist) ∧
    ((update cfgHist true s record_id f t).2 =
      (update cfgHist false s record_id f t).2) ∧
    ((update cfgHist true s record_id f t).1.rows =
      (update cfgHist false s record_id f t).1.rows) ∧
    ((update cfgHist true s record_id f t).1.hist = s.hist) := by
  refine ⟨?_, ?_, ?_, ?_, ?_, ?_⟩
  · rw [insert_result, insert_result]
  · rw [insert_rows, insert_rows]
  · unfold insert
    simp
  · by_cases hne : f.isEmpty = true
    · unfold update
      rw [if_pos hne, if_pos hne]
    · rw [update_result _ _ _ _ _ _ (Bool.eq_false_iff.2 hne),
        update_result _ _ _ _ _ _ (Bool.eq_false_iff.2 hne)]
  · by_cases hne : f.isEmpty = true
    · unfold update
      rw [if_pos hne, if_pos hne]
    · rw [update_rows _ _ _ _ _ _ (Bool.eq_false_iff.2 hne),
        update_rows _ _ _ _ _ _ (Bool.eq_false_iff.2 hne)]
  · unfold update
    by_cases hne : f.isEmpty = true
    · rw [if_pos hne]
    · rw [if_neg hne]
      by_cases haff : s.rows.any (fun r => r.id == record_id) = true
      · rw [haff]
        simp
      · rw [Bool.eq_false_iff.2 haff]
        simp

/-- C5 counterexample: on the input "-a" the comparison-text normalization
also removes the LEADING '-' — Python `strip(",.:;-")` strips both ends —
so the claim's "only from the trailing end of the text (leading characters
are left intact)" fails: the leading character is not left intact. -/
theorem normalize_strips_leading_punct_cex :
    normalize false (strL "-a") = strL "a" ∧ strL "-a" ≠ strL "a" := by
  constructor
  · decide
  · decide

/-- C5 (amended): for every input string the comparison-text normalization
collapses whitespace runs to a single space, trims, lowercases unless
case-sensitive matching is requested, and strips the punctuation characters
`,.:;-` from BOTH the leading and the trailing end — i.e. it equals the
spec's pipeline with "trailing" amended to "both ends". -/
theorem normalize_spec_both_ends (matchCase : Bool) (text : List Char) :
    normalize matchCase text = specNormalizeBothEnds matchCase text :=
  normalize_eq_specNormalizeBothEnds matchCase text

lemma clamp01_nonneg (q : ℚ) : 0 ≤ clamp01 q := le_max_left 0 _

lemma clamp01_le_one (q : ℚ) : clamp01 q ≤ 1 :=
  max_le (by norm_num) (min_le_left 1 q)

lemma clamp01_eq {q : ℚ} (h0 : 0 ≤ q) (h1 : q ≤ 1) : clamp01 q = q := by
  unfold clamp01
  rw [min_eq_right h1, max_eq_right h0]

lemma normalized_pair_ok (x1 x2 W : Int) (hW : 0 < W) (h1 : 0 ≤ x1)
    (h2 : x1 < x2) (h3 : x2 ≤ W) :
    0 < clamp01 (((x2 - x1 : Int) : ℚ) / (W : ℚ)) ∧
    clamp01 ((x1 : ℚ) / (W : ℚ)) +
      clamp01 (((x2 - x1 : Int) : ℚ) / (W : ℚ)) ≤ 1 := by
  have hWq : (0 : ℚ) < (W : ℚ) := by exact_mod_cast hW
  have hx1q : (0 : ℚ) ≤ (x1 : ℚ) := by exact_mod_cast h1
  have hdq : (0 : ℚ) < ((x2 - x1 : Int) : ℚ) := by
    push_cast
    have : (x1 : ℚ) < (x2 : ℚ) := by exact_mod_cast h2
    linarith
  have hx2W : (x2 : ℚ) ≤ (W : ℚ) := by exact_mod_cast h3
  have e1 : clamp01 ((x1 : ℚ) / (W : ℚ)) = (x1 : ℚ) / (W : ℚ) := by
    refine clamp01_eq (div_nonneg hx1q (le_of_lt hWq)) ?_
    rw [div_le_one hWq]
    have : (x1 : ℚ) < (x2 : ℚ) := by exact_mod_cast h2
    linarith
  have e2 : clamp01 (((x2 - x1 : Int) : ℚ) / (W : ℚ)) =
      ((x2 - x1 : Int) : ℚ) / (W : ℚ) := by
    refine clamp01_eq (le_of_lt (div_pos hdq hWq)) ?_
    rw [div_le_one hWq]
    push_cast
    linarith
  rw [e1, e2]
  constructor
  · exact div_pos hdq hWq
  · rw [div_add_div_same, div_le_one hWq]
    push_cast
    linarith

/-- C6 counterexample: clamping alone does not establish the Normalized Rect
invariant — the box `[1,0,3,1]` on a 1×1 page yields `(1,0,1,1)` with
`left + width = 2 > 1`, and the degenerate box `[0,0,0,1]` yields width 0,
violating `width > 0`. -/
theorem pixel_bbox_invariant_cex :
    (pixel_bbox_to_normalized [1, 0, 3, 1] 1 1 = .ok (1, 0, 1, 1) ∧
      ¬((1 : ℚ) + 1 ≤ 1)) ∧
    (pixel_bbox_to_normalized [0, 0, 0, 1] 1 1 = .ok (0, 0, 0, 1) ∧
      ¬((0 : ℚ) < 0)) := by
  refine ⟨⟨?_, by norm_num⟩, ⟨?_, by norm_num⟩⟩
  · simp only [pixel_bbox_to_normalized]
    norm_num [clamp01]
  · simp only [pixel_bbox_to_normalized]
    norm_num [clamp01]

/-- C6 (amended): for every 4-coordinate box and positive page dimensions
the conversion succeeds and each of `(left, top, width, height)` is clamped
into `[0,1]`; the full Normalized Rect invariant — `left+width ≤ 1`,
`top+height ≤ 1`, `width > 0`, `height > 0` — additionally requires the box
corners to lie inside the page and to be non-degenerate on each axis. -/
theorem pixel_bbox_invariant (a b c d W H : Int) (hW : 0 < W) (hH : 0 < H) :
    ∃ l t wd ht,
      pixel_bbox_to_normalized [a, b, c, d] W H = .ok (l, t, wd, ht) ∧
      0 ≤ l ∧ l ≤ 1 ∧ 0 ≤ t ∧ t ≤ 1 ∧
      0 ≤ wd ∧ wd ≤ 1 ∧ 0 ≤ ht ∧ ht ≤ 1 ∧
      (0 ≤ a → 0 ≤ c → a ≤ W → c ≤ W → a ≠ c → 0 < wd ∧ l + wd ≤ 1) ∧
      (0 ≤ b → 0 ≤ d → b ≤ H → d ≤ H → b ≠ d → 0 < ht ∧ t + ht ≤ 1) := by
  have hcond : (decide (W ≤ 0) || decide (H ≤ 0)) = false := by
    simp only [Bool.or_eq_false_iff, decide_eq_false_iff_not, not_le]
    exact ⟨hW, hH⟩
  refine ⟨clamp01 (((if c < a then c else a : Int) : ℚ) / (W : ℚ)),
    clamp01 (((if d < b then d else b : Int) : ℚ) / (H : ℚ)),
    clamp01 ((((if c < a then a else c) - (if c < a then c else a) : Int) : ℚ) /
      (W : ℚ)),
    clamp01 ((((if d < b then b else d) - (if d < b then d else b) : Int) : ℚ) /
      (H : ℚ)),
    ?_, clamp01_nonneg _, clamp01_le_one _,
    clamp01_nonneg _, clamp01_le_one _, clamp01_nonneg _, clamp01_le_one _,
    clamp01_nonneg _, clamp01_le_one _, ?_, ?_⟩
  · simp only [pixel_bbox_to_normalized]
    rw [if_neg (show ¬((decide (W ≤ 0) || decide (H ≤ 0)) = true) by
      rw [hcond]; exact Bool.false_ne_true)]
  · intro h0a h0c haW hcW hne
    by_cases hca : c < a
    · rw [if_pos hca, if_pos hca]
      exact normalized_pair_ok c a W hW h0c hca haW
    · rw [if_neg hca, if_neg hca]
      have : a < c := by omega
      exact normalized_pair_ok a c W hW h0a this hcW
  · intro h0b h0d hbH hdH hne
    by_cases hdb : d < b
    · rw [if_pos hdb, if_pos hdb]
      exact normalized_pair_ok d b H hH h0d hdb hbH
    · rw [if_neg hdb, if_neg hdb]
      have : b < d := by omega
      exact normalized_pair_ok b d H hH h0b this hdH

/-- Witness for C6 (amended) on an in-bounds non-degenerate box. -/
theorem pixel_bbox_invariant_witness :
    ∃ l t wd ht,
      pixel_bbox_to_normalized [0, 0, 1, 1] 1 1 = .ok (l, t, wd, ht) ∧
      0 ≤ l ∧ l ≤ 1 ∧ 0 ≤ t ∧ t ≤ 1 ∧
      0 ≤ wd ∧ wd ≤ 1 ∧ 0 ≤ ht ∧ ht ≤ 1 ∧
      (0 ≤ (0 : Int) → 0 ≤ (1 : Int) → (0 : Int) ≤ 1 → (1 : Int) ≤ 1 →
        (0 : Int) ≠ 1 → 0 < wd ∧ l + wd ≤ 1) ∧
      (0 ≤ (0 : Int) → 0 ≤ (1 : Int) → (0 : Int) ≤ 1 → (1 : Int) ≤ 1 →
        (0 : Int) ≠ 1 → 0 < ht ∧ t + ht ≤ 1) :=
  pixel_bbox_invariant 0 0 1 1 1 1 (by norm_num) (by norm_num)

/-- C4: evaluated at the spec's §8 alignment property input — target
"John Doe" over the token stream ["John","Doe","lives","here"] — the source
returns no match (`.ok none`, Python `None`) instead of the union of the
"John" and "Doe" token boxes: the inner loop concatenates raw token text
with no separator, so every window normalizes without spaces ("johndoe", …)
and can never equal the normalized target "john doe".  The second conjunct
evaluates the union rectangle of the "John" and "Doe" tokens, the box the
property requires, showing what the code fails to return. -/
theorem find_john_doe_returns_none :
    find_target_bboxes false (strL "John Doe")
      [[strL "John", strL "Doe", strL "lives", strL "here"]]
      [[[10, 20, 50, 30], [60, 20, 90, 30], [100, 20, 140, 30],
        [150, 20, 190, 30]]] = .ok none ∧
    unionBox (flattenTokens [[strL "John", strL "Doe"]]
      [[[10, 20, 50, 30], [60, 20, 90, 30]]]) = .ok [10, 20, 90, 30] := by
  constructor <;> rfl

/-- C7 counterexample: the target ", ." consists only of stripped
punctuation and whitespace characters, yet the aligner does NOT return an
empty result for it — it normalizes to a single space " ", which the token
", ." also normalizes to, so the token's box is returned. -/
theorem punct_ws_target_matches_cex :
    (∀ c ∈ strL ", .", isPunct c = true ∨ isWS c = true) ∧
    normalize false (strL ", .") = strL " " ∧
    find_target_bboxes false (strL ", .") [[strL ", ."]] [[[1, 2, 3, 4]]] =
      .ok (some [1, 2, 3, 4]) := by
  refine ⟨by decide, by decide, by rfl⟩

/-- C7 (amended): when no contiguous window of the flattened token stream
has concatenated text normalizing to the normalized target, the aligner
returns the empty result `.ok none` and cannot raise; and a target whose
NORMALIZED form is empty (rather than one merely consisting of punctuation
and whitespace characters) likewise yields the empty result. -/
theorem no_match_returns_none (matchCase : Bool) (target : List Char)
    (textLines : List (List (List Char)))
    (boxLines : List (List (List Int))) :
    ((∀ w ∈ contiguousWindows (flattenTokens textLines boxLines),
        normalize matchCase (textConcat w) ≠ normalize matchCase target) →
      find_target_bboxes matchCase target textLines boxLines = .ok none) ∧
    (normalize matchCase target = [] →
      find_target_bboxes matchCase target textLines boxLines = .ok none) := by
  constructor
  · intro hno
    simp only [find_target_bboxes]
    split
    · rfl
    · split
      · rfl
      · split
        · rfl
        · split
          · rfl
          · rename_i b heq
            exfalso
            obtain ⟨pre, w, post, hdec, hnorm, hr⟩ :=
              findFrom_some _ _ _ _ heq
            exact hno w (window_mem_contiguousWindows hdec) hnorm
          · rename_i e heq
            exfalso
            obtain ⟨pre, w, post, hdec, hnorm, hr⟩ :=
              findFrom_some _ _ _ _ heq
            exact hno w (window_mem_contiguousWindows hdec) hnorm
  · intro hte
    simp only [find_target_bboxes]
    split
    · rfl
    · split
      · rfl
      · rw [hte]
        rfl

/-- Witness for C7 (amended): a non-matching target yields `.ok none`, and
a target normalizing to the empty string yields `.ok none`. -/
theorem no_match_returns_none_witness :
    find_target_bboxes false (strL "xyz") [[strL "ab"]] [[[1, 2, 3, 4]]] =
      .ok none ∧
    find_target_bboxes false (strL ",,") [[strL "ab"]] [[[1, 2, 3, 4]]] =
      .ok none :=
  ⟨(no_match_returns_none false (strL "xyz") [[strL "ab"]]
      [[[1, 2, 3, 4]]]).1 (by decide),
   (no_match_returns_none false (strL ",,") [[strL "ab"]]
      [[[1, 2, 3, 4]]]).2 (by decide)⟩

/-- The one-row datastore of the update counterexample. -/
def c8Row : DBRow :=
  { id := 1, object_id := 1, field_id := 2, set_id := 3,
    lookup_info1 := strL "a", lookup_info2 := strL "b", updated := 5,
    annot_data := W.wI 0 }

/-- A state holding only `c8Row`. -/
def c8State : DBState :=
  { rows := [c8Row], nextId := 2, hist := [], nextHistId := 1 }

/-- An `update` call that provides no field at all. -/
def emptyFields : UpdateFields :=
  { annot_data := none, object_id := none, field_id := none, set_id := none,
    lookup_info1 := none, lookup_info2 := none }

/-- C8 counterexample: record id 1 exists, yet an update call providing no
fields returns `false` and leaves the state — including the record's
modified timestamp — completely untouched, contradicting "always refreshes
the modified timestamp, and returns true" for every existing id. -/
theorem update_no_fields_cex :
    (c8State.rows.any (fun r => r.id == 1)) = true ∧
    update true false c8State 1 emptyFields 99 = (c8State, false) := by
  constructor
  · rfl
  · rfl

/-- C8 (amended): for a call providing at least one field, `update` on an
existing id returns true, replaces exactly that record by one with the
provided fields applied — every omitted field keeps its stored value and
the modified timestamp is always refreshed — and leaves all other records
as they are; on a missing id it returns false, a normal outcome, changing
nothing; a call providing no fields returns false without any write. -/
theorem update_applies_only_provided_fields (cfgHist histFail : Bool)
    (s : DBState) (rid : Nat) (f : UpdateFields) (t : Nat)
    (hne : f.isEmpty = false) :
    ((update cfgHist histFail s rid f t).2 = true ↔
      ∃ r ∈ s.rows, r.id = rid) ∧
    (∀ r ∈ s.rows, r.id ≠ rid →
      r ∈ (update cfgHist histFail s rid f t).1.rows) ∧
    (∀ r ∈ s.rows, r.id = rid →
      applyFields f t r ∈ (update cfgHist histFail s rid f t).1.rows) ∧
    ((update cfgHist histFail s rid f t).1.rows.length = s.rows.length) ∧
    (∀ r, (applyFields f t r).updated = t ∧ (applyFields f t r).id = r.id) ∧
    (∀ r,
      (f.object_id = none →
        (applyFields f t r).object_id = r.object_id) ∧
      (f.field_id = none → (applyFields f t r).field_id = r.field_id) ∧
      (f.set_id = none → (applyFields f t r).set_id = r.set_id) ∧
      (f.lookup_info1 = none →
        (applyFields f t r).lookup_info1 = r.lookup_info1) ∧
      (f.lookup_info2 = none →
        (applyFields f t r).lookup_info2 = r.lookup_info2) ∧
      (f.annot_data = none →
        (applyFields f t r).annot_data = r.annot_data) ∧
      (∀ v, f.object_id = some v → (applyFields f t r).object_id = v) ∧
      (∀ v, f.field_id = some v → (applyFields f t r).field_id = v) ∧
      (∀ v, f.set_id = some v → (applyFields f t r).set_id = v) ∧
      (∀ v, f.lookup_info1 = some v →
        (applyFields f t r).lookup_info1 = v) ∧
      (∀ v, f.lookup_info2 = some v →
        (applyFields f t r).lookup_info2 = v) ∧
      (∀ ad, f.annot_data = some ad →
        (applyFields f t r).annot_data = encodeAnnotData ad)) ∧
    ((∀ r ∈ s.rows, r.id ≠ rid) →
      (update cfgHist histFail s rid f t).1.rows = s.rows ∧
      (update cfgHist histFail s rid f t).1.hist = s.hist ∧
      (update cfgHist histFail s rid f t).2 = false) := by
  refine ⟨?_, ?_, ?_, ?_, ?_, ?_, ?_⟩
  · rw [update_result _ _ _ _ _ _ hne]
    simp [List.any_eq_true]
  · intro r hr hne2
    rw [update_rows _ _ _ _ _ _ hne]
    have : (fun r : DBRow => if r.id == rid then applyFields f t r else r) r =
        r := by
      simp [hne2]
    rw [← this]
    exact List.mem_map_of_mem _ hr
  · intro r hr he
    rw [update_rows _ _ _ _ _ _ hne]
    have : (fun r : DBRow => if r.id == rid then applyFields f t r else r) r =
        applyFields f t r := by
      simp [he]
    rw [← this]
    exact List.mem_map_of_mem _ hr
  · rw [update_rows _ _ _ _ _ _ hne, List.length_map]
  · intro r
    exact ⟨rfl, rfl⟩
  · intro r
    refine ⟨?_, ?_, ?_, ?_, ?_, ?_, ?_, ?_, ?_, ?_, ?_, ?_⟩ <;>
      first
        | (intro h; simp [applyFields, h])
        | (intro v h; simp [applyFields, h])
  · intro hall
    have haff : s.rows.any (fun r => r.id == rid) = false := by
      rw [List.any_eq_false]
      intro r hr
      simpa using hall r hr
    refine ⟨?_, ?_, ?_⟩
    · rw [update_rows _ _ _ _ _ _ hne]
      rw [show s.rows.map
          (fun r => if r.id == rid then applyFields f t r else r) =
          s.rows.map id from List.map_congr_left
            (fun r hr => by rw [if_neg (by simpa using hall r hr)]; rfl),
        List.map_id]
    · unfold update
      rw [if_neg (by rw [hne]; exact Bool.false_ne_true), haff]
      simp
    · rw [update_result _ _ _ _ _ _ hne, haff]

/-- The payload used by the witnesses of the store claims. -/
def wAd : AnnotData := { aAnnots := [], iPageLevelIDCount := 0, lPageNumber := 0 }

/-- Witness for C8 (amended) on the concrete one-row state. -/
theorem update_applies_only_provided_fields_witness :
    ((update true false c8State 1 (annotDataOnly wAd) 9).2 = true ↔
      ∃ r ∈ c8State.rows, r.id = 1) ∧
    (∀ r ∈ c8State.rows, r.id ≠ 1 →
      r ∈ (update true false c8State 1 (annotDataOnly wAd) 9).1.rows) ∧
    (∀ r ∈ c8State.rows, r.id = 1 →
      applyFields (annotDataOnly wAd) 9 r ∈
        (update true false c8State 1 (annotDataOnly wAd) 9).1.rows) ∧
    ((update true false c8State 1 (annotDataOnly wAd) 9).1.rows.length =
      c8State.rows.length) ∧
    (∀ r, (applyFields (annotDataOnly wAd) 9 r).updated = 9 ∧
      (applyFields (annotDataOnly wAd) 9 r).id = r.id) ∧
    (∀ r,
      ((annotDataOnly wAd).object_id = none →
        (applyFields (annotDataOnly wAd) 9 r).object_id = r.object_id) ∧
      ((annotDataOnly wAd).field_id = none →
        (applyFields (annotDataOnly wAd) 9 r).field_id = r.field_id) ∧
      ((annotDataOnly wAd).set_id = none →
        (applyFields (annotDataOnly wAd) 9 r).set_id = r.set_id) ∧
      ((annotDataOnly wAd).lookup_info1 = none →
        (applyFields (annotDataOnly wAd) 9 r).lookup_info1 = r.lookup_info1) ∧
      ((annotDataOnly wAd).lookup_info2 = none →
        (applyFields (annotDataOnly wAd) 9 r).lookup_info2 = r.lookup_info2) ∧
      ((annotDataOnly wAd).annot_data = none →
        (applyFields (annotDataOnly wAd) 9 r).annot_data = r.annot_data) ∧
      (∀ v, (annotDataOnly wAd).object_id = some v →
        (applyFields (annotDataOnly wAd) 9 r).object_id = v) ∧
      (∀ v, (annotDataOnly wAd).field_id = some v →
        (applyFields (annotDataOnly wAd) 9 r).field_id = v) ∧
      (∀ v, (annotDataOnly wAd).set_id = some v →
        (applyFields (annotDataOnly wAd) 9 r).set_id = v) ∧
      (∀ v, (annotDataOnly wAd).lookup_info1 = some v →
        (applyFields (annotDataOnly wAd) 9 r).lookup_info1 = v) ∧
      (∀ v, (annotDataOnly wAd).lookup_info2 = some v →
        (applyFields (annotDataOnly wAd) 9 r).lookup_info2 = v) ∧
      (∀ ad, (annotDataOnly wAd).annot_data = some ad →
        (applyFields (annotDataOnly wAd) 9 r).annot_data =
          encodeAnnotData ad)) ∧
    ((∀ r ∈ c8State.rows, r.id ≠ 1) →
      (update true false c8State 1 (annotDataOnly wAd) 9).1.rows =
        c8State.rows ∧
      (update true false c8State 1 (annotDataOnly wAd) 9).1.hist =
        c8State.hist ∧
      (update true false c8State 1 (annotDataOnly wAd) 9).2 = false) :=
  update_applies_only_provided_fields true false c8State 1
    (annotDataOnly wAd) 9 rfl

lemma filter_matchesKey_map_update (oid fid sid : Int)
    (li1 li2 : List Char) (rid : Nat) (f : UpdateFields) (t : Nat)
    (hkeys : f.object_id = none ∧ f.field_id = none ∧ f.set_id = none ∧
      f.lookup_info1 = none ∧ f.lookup_info2 = none)
    {rows : List DBRow}
    (hall : ∀ r ∈ rows, matchesKey oid fid sid li1 li2 r = false) :
    (rows.map (fun r => if r.id == rid then applyFields f t r else r)).filter
      (matchesKey oid fid sid li1 li2) = [] := by
  rw [List.filter_eq_nil_iff]
  intro x hx
  obtain ⟨r, hr, hrx⟩ := List.mem_map.1 hx
  subst hrx
  by_cases hid : (r.id == rid) = true
  · rw [if_pos hid]
    obtain ⟨h1, h2, h3, h4, h5⟩ := hkeys
    rw [show matchesKey oid fid sid li1 li2 (applyFields f t r) =
        matchesKey oid fid sid li1 li2 r by
      simp [matchesKey, applyFields, h1, h2, h3, h4, h5]]
    simp [hall r hr]
  · rw [if_neg hid]
    simp [hall r hr]

/-- C2: starting from a state with no current record for the lookup key,
with the history table configured and no audit failure, calling `upsert`
twice with the same lookup key and the same payload leaves exactly one
current record for that key — the second call finds the first call's record
and updates it rather than inserting a duplicate, returning the same record
id with `was_inserted = false` — and appends exactly two history records,
one per call. -/
theorem upsert_twice_single_record (s : DBState) (ad : AnnotData)
    (oid fid sid : Int) (li1 li2 : List Char) (t1 t2 : Nat)
    (hnone : ∀ r ∈ s.rows, matchesKey oid fid sid li1 li2 r = false) :
    ((upsert true false s ad oid fid sid li1 li2 t1).2.2 = true) ∧
    ((upsert true false (upsert true false s ad oid fid sid li1 li2 t1).1
        ad oid fid sid li1 li2 t2).2.2 = false) ∧
    ((upsert true false (upsert true false s ad oid fid sid li1 li2 t1).1
        ad oid fid sid li1 li2 t2).2.1 =
      (upsert true false s ad oid fid sid li1 li2 t1).2.1) ∧
    (((upsert true false (upsert true false s ad oid fid sid li1 li2 t1).1
        ad oid fid sid li1 li2 t2).1.rows.filter
          (matchesKey oid fid sid li1 li2)).length = 1) ∧
    ((upsert true false (upsert true false s ad oid fid sid li1 li2 t1).1
        ad oid fid sid li1 li2 t2).1.hist.length = s.hist.length + 2) := by
  have hq1 : queryByKey s oid fid sid li1 li2 1 = [] := by
    unfold queryByKey
    rw [List.filter_eq_nil_iff.mpr (fun r hr => by simp [hnone r hr])]
    rfl
  have hu1 : upsert true false s ad oid fid sid li1 li2 t1 =
      ((insert true false s ad oid fid sid li1 li2 t1).1,
        (insert true false s ad oid fid sid li1 li2 t1).2, true) := by
    unfold upsert
    rw [hq1]
  have hrows1 : (insert true false s ad oid fid sid li1 li2 t1).1.rows =
      s.rows ++ [newRowFor s ad oid fid sid li1 li2 t1] :=
    insert_rows true false s ad oid fid sid li1 li2 t1
  have hhist1 : (insert true false s ad oid fid sid li1 li2 t1).1.hist.length =
      s.hist.length + 1 := insert_hist_len_ok s ad oid fid sid li1 li2 t1
  have hfilter1 : (insert true false s ad oid fid sid li1 li2
      t1).1.rows.filter (matchesKey oid fid sid li1 li2) =
      [newRowFor s ad oid fid sid li1 li2 t1] := by
    rw [hrows1, List.filter_append,
      List.filter_eq_nil_iff.mpr (fun r hr => by simp [hnone r hr]),
      List.nil_append, List.filter_cons,
      if_pos (by rw [matchesKey_newRowFor])]
    rfl
  have hq2 : queryByKey (insert true false s ad oid fid sid li1 li2 t1).1
      oid fid sid li1 li2 1 = [newRowFor s ad oid fid sid li1 li2 t1] := by
    unfold queryByKey
    rw [hfilter1]
    rfl
  have hu2 : upsert true false
      (insert true false s ad oid fid sid li1 li2 t1).1
      ad oid fid sid li1 li2 t2 =
      ((update true false (insert true false s ad oid fid sid li1 li2 t1).1
          (newRowFor s ad oid fid sid li1 li2 t1).id
          (annotDataOnly ad) t2).1,
        (newRowFor s ad oid fid sid li1 li2 t1).id, false) := by
    unfold upsert
    rw [hq2]
  have hmem : newRowFor s ad oid fid sid li1 li2 t1 ∈
      (insert true false s ad oid fid sid li1 li2 t1).1.rows := by
    rw [hrows1]
    simp
  refine ⟨by rw [hu1], by rw [hu1, hu2],
    by rw [hu1, hu2, insert_result]; rfl, ?_, ?_⟩
  · rw [hu1, hu2,
      update_rows _ _ _ _ _ _ (annotDataOnly_not_isEmpty ad), hrows1,
      List.map_append, List.filter_append,
      filter_matchesKey_map_update oid fid sid li1 li2 _ _ t2
        ⟨rfl, rfl, rfl, rfl, rfl⟩ hnone,
      List.nil_append, List.map_cons, List.map_nil, List.filter_cons]
    rw [if_pos (by
      rw [if_pos (by simp),
        matchesKey_applyFields_annotDataOnly, matchesKey_newRowFor])]
    rfl
  · rw [hu1, hu2,
      update_hist_len_ok _ _ _ _ (annotDataOnly_not_isEmpty ad)
        ⟨newRowFor s ad oid fid sid li1 li2 t1, hmem, by simp⟩,
      hhist1]

/-- Witness for C2 from the empty datastore. -/
theorem upsert_twice_single_record_witness :
    ((upsert true false (DBState.mk [] 1 [] 1) wAd 1 2 3 (strL "a")
        (strL "b") 10).2.2 = true) ∧
    ((upsert true false
        (upsert true false (DBState.mk [] 1 [] 1) wAd 1 2 3 (strL "a")
          (strL "b") 10).1 wAd 1 2 3 (strL "a") (strL "b") 11).2.2 =
      false) ∧
    ((upsert true false
        (upsert true false (DBState.mk [] 1 [] 1) wAd 1 2 3 (strL "a")
          (strL "b") 10).1 wAd 1 2 3 (strL "a") (strL "b") 11).2.1 =
      (upsert true false (DBState.mk [] 1 [] 1) wAd 1 2 3 (strL "a")
        (strL "b") 10).2.1) ∧
    (((upsert true false
        (upsert true false (DBState.mk [] 1 [] 1) wAd 1 2 3 (strL "a")
          (strL "b") 10).1 wAd 1 2 3 (strL "a") (strL "b") 11).1.rows.filter
          (matchesKey 1 2 3 (strL "a") (strL "b"))).length = 1) ∧
    ((upsert true false
        (upsert true false (DBState.mk [] 1 [] 1) wAd 1 2 3 (strL "a")
          (strL "b") 10).1 wAd 1 2 3 (strL "a") (strL "b") 11).1.hist.length =
      (DBState.mk [] 1 [] 1).hist.length + 2) :=
  upsert_twice_single_record (DBState.mk [] 1 [] 1) wAd 1 2 3 (strL "a")
    (strL "b") 10 11 (by simp)

end PiiPipeline
